import Mathlib

/-!
Verification of the Techloop Polling server core (`src/server.js`).

Shallow embedding of the in-memory poll store, the REST create/get handlers
and the Socket.io `join`/`vote` handlers of `src/server.js`.

Modelling choices:
* The JS object `polls` is an association list `List (String × Poll)`;
  `polls[id]` is first-match lookup, `polls[id] = v` replaces in place or
  appends.
* The `optionIndex` field of a vote message is a JS number, embedded as
  `Option ℚ`: `some q` is a numeric value (the payloads of interest are
  small integers and simple fractions, which JS doubles represent exactly),
  `none` is `undefined` / any value whose `ToNumber` is `NaN` (a missing
  field, a non-numeric string).  JS comparisons `x < 0` and `x >= len` are
  false for `NaN`, and `poll.options[x]` yields `undefined` unless `x` is a
  nonnegative integer below the length, in which case `undefined.votes++`
  throws a `TypeError`; the model records that as the `jsError` outcome.
* Socket.io rooms are an association list from poll id to the list of
  member connection ids; `socket.join` is idempotent insertion.
-/

set_option autoImplicit false

namespace Techloop

/-- One poll option: `{ text, votes }` as stored by `server.js`. -/
structure PollOption where
  text : String
  votes : Nat
  deriving Repr, DecidableEq

/-- A stored poll: `{ question, options }` as stored in `polls[id]`. -/
structure Poll where
  question : String
  options : List PollOption
  deriving Repr, DecidableEq

/-- The in-memory store `const polls = {}`: poll id to poll. -/
abbrev Store := List (String × Poll)

/-- Lookup `polls[id]` — lookup of a poll by id (JS object keys are unique; the
model reads the first matching entry). -/
def findPoll : Store → String → Option Poll
  | [], _ => none
  | kv :: t, id => if kv.1 = id then some kv.2 else findPoll t id

/-- Assignment `polls[id] = p` — JS object assignment: replace the entry in place when
the key is present, append it at the end otherwise. -/
def setPoll : Store → String → Poll → Store
  | [], id, p => [(id, p)]
  | kv :: t, id, p => if kv.1 = id then (id, p) :: t else kv :: setPoll t id p

/-- The `options` field of a create request body.  `arr` is a JS array of
strings; `notArray` covers every non-array truthy value; `missing` covers
`undefined`/`null`/other falsy values (`!options` rejects them). -/
inductive OptionsField where
  | missing
  | notArray
  | arr (xs : List String)
  deriving Repr, DecidableEq

/-- JS `String.prototype.trim()`: strip leading and trailing whitespace.
Modelled over the character list so that it is computable by the kernel. -/
def jsTrim (s : String) : String :=
  ⟨((s.data.dropWhile Char.isWhitespace).reverse.dropWhile
      Char.isWhitespace).reverse⟩

/-- The filter `o => o && o.trim()` of `server.js` line 117: keep an entry
iff it is non-empty after trimming (an empty string is falsy, and trimming
a non-empty string of whitespace yields the falsy `""`). -/
def keepOption (o : String) : Bool :=
  jsTrim o ≠ ""

/-- The stored options list built at `server.js` line 117:
`options.filter(o => o && o.trim()).map(text => ({ text: text.trim(), votes: 0 }))`. -/
def buildOptions (xs : List String) : List PollOption :=
  (xs.filter keepOption).map (fun t => { text := jsTrim t, votes := 0 })

/-- Response of `POST /api/polls`: `error` is the 400 body
`{ error: ... }`, `ok` is the 200 body `{ id, question, options }`. -/
inductive CreateResponse where
  | error (msg : String)
  | ok (id : String) (poll : Poll)
  deriving Repr, DecidableEq

/-- The `POST /api/polls` handler (`server.js` lines 88–123).  The guard is
`!question || !options || !Array.isArray(options) || options.length < 2`
on the *raw* request values; trimming and filtering happen only when the
poll is stored.  `genId` stands for the id computed at line 109 from
`Date.now()` and `Math.random()` — an environment-supplied string the
handler itself never checks for freshness. -/
def createPoll (s : Store) (question : String) (options : OptionsField)
    (genId : String) : Store × CreateResponse :=
  match options with
  | .arr xs =>
    if question = "" ∨ xs.length < 2 then
      (s, .error "Question and at least 2 options required")
    else
      let poll : Poll := { question := jsTrim question, options := buildOptions xs }
      (setPoll s genId poll, .ok genId poll)
  | _ => (s, .error "Question and at least 2 options required")

/-- Response of `GET /api/polls/:id` (`server.js` lines 133–137). -/
inductive GetResponse where
  | notFound (msg : String)
  | ok (poll : Poll)
  deriving Repr, DecidableEq

/-- The `GET /api/polls/:id` handler. -/
def getPoll (s : Store) (id : String) : GetResponse :=
  match findPoll s id with
  | none => .notFound "Poll not found"
  | some p => .ok p

/-- Increment `poll.options[optionIndex].votes++` for a valid index `i`: bump the
vote count of option `i`, leaving everything else as it was. -/
def incVote (p : Poll) (i : Nat) : Poll :=
  match p.options[i]? with
  | some o => { p with options := p.options.set i { o with votes := o.votes + 1 } }
  | none => p

/-- Outcome of the `vote` handler body (`server.js` lines 168–175). -/
inductive VoteOutcome where
  /-- The guard `!poll || optionIndex < 0 || optionIndex >= len` returned. -/
  | noop
  /-- The vote was applied; the payload is the updated poll that
  `io.to(pollId).emit('update', poll)` broadcasts. -/
  | voted (p : Poll)
  /-- Case where `poll.options[optionIndex]` was `undefined` and `.votes++` threw a
  `TypeError` (non-integer or non-numeric index on an existing poll). -/
  | jsError
  deriving Repr, DecidableEq

/-- The mutation step of the `vote` handler (`server.js` lines 168–175):

```js
const poll = polls[pollId];
if (!poll || optionIndex < 0 || optionIndex >= poll.options.length) return;
poll.options[optionIndex].votes++;
```

`optionIndex` is `some q` for a numeric payload, `none` for
`undefined`/`NaN`-like payloads (both JS comparisons are then false, so
the guard falls through and the increment throws). -/
def castVote (s : Store) (pollId : String) (optionIndex : Option ℚ) :
    Store × VoteOutcome :=
  match findPoll s pollId with
  | none => (s, .noop)
  | some poll =>
    match optionIndex with
    | none => (s, .jsError)
    | some q =>
      if q < 0 ∨ (poll.options.length : ℚ) ≤ q then
        (s, .noop)
      else if q.den = 1 then
        let poll' := incVote poll q.num.toNat
        (setPoll s pollId poll', .voted poll')
      else
        (s, .jsError)

/-- Run `castVote` at a natural-number index, the shape every well-formed
client (`public/js/vote.js`) sends. -/
def castVoteN (s : Store) (pollId : String) (i : Nat) : Store × VoteOutcome :=
  castVote s pollId (some (i : ℚ))

/-- Socket.io room membership: poll id to the list of member connection
ids (connections are numbered).  `socket.join(room)` adds the socket to
the room's set; membership is a set, so joining twice is joining once. -/
abbrev Rooms := List (String × List Nat)

/-- The members of a room (empty when the room was never created). -/
def roomMembers : Rooms → String → List Nat
  | [], _ => []
  | kv :: t, pollId => if kv.1 = pollId then kv.2 else roomMembers t pollId

/-- JS `socket.join(pollId)`: create the room on first join, add the
connection if it is not already a member. -/
def joinRoom : Rooms → String → Nat → Rooms
  | [], pollId, conn => [(pollId, [conn])]
  | kv :: t, pollId, conn =>
    if kv.1 = pollId then
      (kv.1, if conn ∈ kv.2 then kv.2 else kv.2 ++ [conn]) :: t
    else
      kv :: joinRoom t pollId conn

/-- A message emitted by the server over the socket layer. -/
inductive Msg where
  /-- Message `socket.emit(event, payload)` — to one connection. -/
  | toConn (conn : Nat) (event : String) (payload : Poll)
  /-- Broadcast `io.to(room).emit(event, payload)` — to every member of a room. -/
  | toRoom (room : String) (event : String) (payload : Poll)
  deriving Repr, DecidableEq

/-- The server's mutable state: the poll store and the room memberships. -/
structure ServerState where
  polls : Store
  rooms : Rooms
  deriving Repr, DecidableEq

/-- The `join` handler (`server.js` lines 158–162): join the room named by
the poll id, then send the current snapshot to this connection alone when
the poll exists. -/
def joinHandler (st : ServerState) (conn : Nat) (pollId : String) :
    ServerState × List Msg :=
  let rooms' := joinRoom st.rooms pollId conn
  match findPoll st.polls pollId with
  | some p => ({ st with rooms := rooms' }, [Msg.toConn conn "poll" p])
  | none => ({ st with rooms := rooms' }, [])

/-- The `vote` handler (`server.js` lines 168–175): run the store mutation;
when a vote was applied, broadcast the updated poll to the poll's room.
A `noop` outcome emits nothing (the guard returned), and a `jsError`
outcome emits nothing (the exception fires before the `emit`). -/
def voteHandler (st : ServerState) (pollId : String) (optionIndex : Option ℚ) :
    ServerState × List Msg × VoteOutcome :=
  let res := castVote st.polls pollId optionIndex
  match res.2 with
  | .voted p' => ({ st with polls := res.1 }, [Msg.toRoom pollId "update" p'], .voted p')
  | out => ({ st with polls := res.1 }, [], out)

/-- An incoming socket message. -/
inductive Event where
  | join (conn : Nat) (pollId : String)
  | vote (pollId : String) (optionIndex : Option ℚ)
  deriving Repr, DecidableEq

/-- Dispatch one incoming message to its handler. -/
def step (st : ServerState) (e : Event) : ServerState × List Msg :=
  match e with
  | .join c pid => joinHandler st c pid
  | .vote pid q =>
    let r := voteHandler st pid q
    (r.1, r.2.1)

/-- Process a sequence of incoming messages in arrival order (the Node
event loop runs handlers one at a time), collecting every emitted message
in emission order. -/
def run (st : ServerState) : List Event → ServerState × List Msg
  | [] => (st, [])
  | e :: es =>
    let r := step st e
    let rest := run r.1 es
    (rest.1, r.2 ++ rest.2)

/-- The `update` payloads broadcast to poll `pid`'s room, in emission
order. -/
def updatesFor (pid : String) (msgs : List Msg) : List Poll :=
  msgs.filterMap (fun m =>
    match m with
    | .toRoom room ev p => if room = pid ∧ ev = "update" then some p else none
    | _ => none)

/-- Whether a vote message would be applied to the store: the poll exists
and the index is a nonnegative in-range integer. -/
def validVote (s : Store) (pollId : String) (optionIndex : Option ℚ) : Bool :=
  match findPoll s pollId, optionIndex with
  | some poll, some q => 0 ≤ q && q < (poll.options.length : ℚ) && q.den = 1
  | _, _ => false

/-- The poll-store snapshots of poll `pid` taken right after each vote on
`pid` that was applied, in application order. -/
def postVoteSnapshots (st : ServerState) (pid : String) : List Event → List Poll
  | [] => []
  | e :: es =>
    let st' := (step st e).1
    let here : List Poll :=
      match e with
      | .vote p q =>
        if p = pid ∧ validVote st.polls p q then
          match findPoll st'.polls pid with
          | some pl => [pl]
          | none => []
        else []
      | _ => []
    here ++ postVoteSnapshots st' pid es

/-- Run a sequence of `castVote(id, i)` calls with natural-number indices
against one poll, in call order. -/
def runVotesN (s : Store) (pollId : String) (votes : List Nat) : Store :=
  votes.foldl (fun st i => (castVoteN st pollId i).1) s

/-- Observation: the vote count of option `j` of poll `id` (`none` when the
poll or the option does not exist). -/
def voteCount (s : Store) (id : String) (j : Nat) : Option Nat :=
  match findPoll s id with
  | none => none
  | some P => Option.map (fun o => o.votes) P.options[j]?

/-- Observation: the question and the option texts (in order) of poll
`id` — everything about a poll except its vote counts. -/
def pollShape (s : Store) (id : String) : Option (String × List String) :=
  Option.map (fun P => (P.question, P.options.map (fun o => o.text))) (findPoll s id)

/-- One request against the poll store, as issued by the two REST handlers
and the `vote` socket handler. -/
inductive StoreOp where
  | create (question : String) (options : OptionsField) (genId : String)
  | get (id : String)
  | vote (pollId : String) (optionIndex : Option ℚ)
  deriving Repr, DecidableEq

/-- The store mutation performed by one request (`get` never writes). -/
def applyOp (s : Store) : StoreOp → Store
  | .create q opts gid => (createPoll s q opts gid).1
  | .get _ => s
  | .vote pid q => (castVote s pid q).1

/-- Run a sequence of store operations in order. -/
def runOps (s : Store) : List StoreOp → Store :=
  List.foldl applyOp s

/-- The spec's store invariant: every stored poll has at least 2 options. -/
def allAtLeastTwo (s : Store) : Bool :=
  s.all (fun kv => 2 ≤ kv.2.options.length)

/-- Whether every create request in a trace carries at least 2 options
that are non-empty after trimming (the condition the spec's validation
clause describes; rejected creates never change the store, so only `arr`
payloads are constrained). -/
def goodCreates (ops : List StoreOp) : Bool :=
  ops.all (fun op =>
    match op with
    | .create _ (.arr xs) _ => 2 ≤ (xs.filter keepOption).length
    | _ => true)

/-- A two-option sample poll with no votes, for concrete instances. -/
def samplePoll : Poll :=
  { question := "Pizza?", options := [{ text := "Yes", votes := 0 }, { text := "No", votes := 0 }] }

/-- A second sample poll. -/
def teaPoll : Poll :=
  { question := "Tea?", options := [{ text := "A", votes := 0 }, { text := "B", votes := 0 }] }

/-- A sample store holding the two sample polls. -/
def samplePolls : Store :=
  [("p1", samplePoll), ("p2", teaPoll)]

/-- The JS number `0.5` (exactly representable as a double), given as a
normal-form rational so the kernel can evaluate with it. -/
def halfRat : ℚ := ⟨1, 2, by norm_num, by norm_num⟩

/-! ## Helper lemmas about the store -/

theorem findPoll_setPoll_self (s : Store) (id : String) (p : Poll) :
    findPoll (setPoll s id p) id = some p := by
  induction s with
  | nil => simp [setPoll, findPoll]
  | cons kv t ih =>
    by_cases hk : kv.1 = id
    · simp [setPoll, findPoll, hk]
    · simp [setPoll, findPoll, hk, ih]

theorem findPoll_setPoll_ne (s : Store) (id id' : String) (p : Poll)
    (h : id' ≠ id) : findPoll (setPoll s id p) id' = findPoll s id' := by
  induction s with
  | nil => simp [setPoll, findPoll, Ne.symm h]
  | cons kv t ih =>
    by_cases hk : kv.1 = id
    · by_cases hk' : kv.1 = id'
      · exact absurd (hk'.symm.trans hk) h
      · simp only [setPoll, if_pos hk, findPoll, if_neg hk']
        have : ¬ (id = id') := fun e => h e.symm
        simp only [this, if_false, if_neg hk']
    · by_cases hk' : kv.1 = id'
      · simp only [setPoll, if_neg hk, findPoll, if_pos hk']
      · simp only [setPoll, if_neg hk, findPoll, if_neg hk', ih]

/-- Fact: `setPoll` only changes the entry for `id`: every other entry of the
association list is kept, in place. -/
theorem mem_setPoll_of_ne (s : Store) (id : String) (p : Poll)
    (kv : String × Poll) (hkv : kv ∈ s) (h : kv.1 ≠ id) :
    kv ∈ setPoll s id p := by
  induction s with
  | nil => cases hkv
  | cons hd t ih =>
    by_cases hk : hd.1 = id
    · simp only [setPoll, hk, if_pos]
      rcases List.mem_cons.mp hkv with rfl | hmem
      · exact absurd hk h
      · exact List.mem_cons_of_mem _ hmem
    · simp only [setPoll, hk, if_neg, not_false_iff]
      rcases List.mem_cons.mp hkv with rfl | hmem
      · exact List.mem_cons_self _ _
      · exact List.mem_cons_of_mem _ (ih hmem)

theorem mem_of_mem_setPoll (s : Store) (id : String) (p : Poll)
    (kv : String × Poll) (hkv : kv ∈ setPoll s id p) :
    kv = (id, p) ∨ kv ∈ s := by
  induction s with
  | nil => simpa [setPoll] using hkv
  | cons hd t ih =>
    by_cases hk : hd.1 = id
    · simp only [setPoll, hk, if_pos] at hkv
      rcases List.mem_cons.mp hkv with rfl | hmem
      · exact Or.inl rfl
      · exact Or.inr (List.mem_cons_of_mem _ hmem)
    · simp only [setPoll, hk, if_neg, not_false_iff] at hkv
      rcases List.mem_cons.mp hkv with rfl | hmem
      · exact Or.inr (List.mem_cons_self _ _)
      · rcases ih hmem with h | h
        · exact Or.inl h
        · exact Or.inr (List.mem_cons_of_mem _ h)

/-! ## Helper lemmas about `incVote` -/

theorem incVote_options (p : Poll) (i : Nat) (h : i < p.options.length) :
    (incVote p i).options =
      p.options.set i
        { p.options.get ⟨i, h⟩ with votes := (p.options.get ⟨i, h⟩).votes + 1 } := by
  unfold incVote
  rw [List.getElem?_eq_getElem h]
  rfl

theorem incVote_question (p : Poll) (i : Nat) :
    (incVote p i).question = p.question := by
  unfold incVote
  cases p.options[i]? <;> rfl

theorem incVote_length (p : Poll) (i : Nat) :
    (incVote p i).options.length = p.options.length := by
  unfold incVote
  cases h : p.options[i]? <;> simp

theorem incVote_getElem?_self (p : Poll) (i : Nat) (h : i < p.options.length) :
    (incVote p i).options[i]? =
      Option.map (fun o => { o with votes := o.votes + 1 }) p.options[i]? := by
  rw [incVote_options p i h, List.getElem?_eq_getElem h,
    List.getElem?_set_eq_of_lt _ h]
  rfl

theorem incVote_getElem?_ne (p : Poll) (i j : Nat) (h : i < p.options.length)
    (hij : i ≠ j) : (incVote p i).options[j]? = p.options[j]? := by
  rw [incVote_options p i h, List.getElem?_set_ne hij]

/-! ## Characterisation of `castVote` -/

theorem castVote_unknown (s : Store) (id : String) (q : Option ℚ)
    (h : findPoll s id = none) : castVote s id q = (s, .noop) := by
  unfold castVote
  rw [h]

theorem castVote_out_of_range (s : Store) (id : String) (P : Poll) (q : ℚ)
    (hP : findPoll s id = some P)
    (hq : q < 0 ∨ (P.options.length : ℚ) ≤ q) :
    castVote s id (some q) = (s, .noop) := by
  unfold castVote
  rw [hP]
  simp only [if_pos hq]

theorem castVote_undefined_index (s : Store) (id : String) (P : Poll)
    (hP : findPoll s id = some P) : castVote s id none = (s, .jsError) := by
  unfold castVote
  rw [hP]

theorem castVote_fractional (s : Store) (id : String) (P : Poll) (q : ℚ)
    (hP : findPoll s id = some P) (h0 : ¬ (q < 0))
    (h1 : ¬ ((P.options.length : ℚ) ≤ q)) (hden : q.den ≠ 1) :
    castVote s id (some q) = (s, .jsError) := by
  unfold castVote
  rw [hP]
  simp only [h0, h1, or_self, if_false, if_neg hden]

theorem castVoteN_valid (s : Store) (id : String) (P : Poll) (i : Nat)
    (hP : findPoll s id = some P) (hi : i < P.options.length) :
    castVoteN s id i = (setPoll s id (incVote P i), .voted (incVote P i)) := by
  unfold castVoteN castVote
  rw [hP]
  have h0 : ¬ ((i : ℚ) < 0) := not_lt.mpr (Nat.cast_nonneg i)
  have h1 : ¬ ((P.options.length : ℚ) ≤ (i : ℚ)) := by
    rw [Nat.cast_le]
    exact not_le.mpr hi
  have hden : ((i : ℚ)).den = 1 := Rat.den_natCast i
  have hnum : ((i : ℚ)).num.toNat = i := by
    rw [Rat.num_natCast, Int.toNat_natCast]
  simp only [h0, h1, or_self, if_false, hden, if_true, hnum]

theorem castVoteN_out_of_range (s : Store) (id : String) (P : Poll) (i : Nat)
    (hP : findPoll s id = some P) (hi : P.options.length ≤ i) :
    castVoteN s id i = (s, .noop) := by
  apply castVote_out_of_range s id P _ hP
  right
  rw [Nat.cast_le]
  exact hi

theorem findPoll_some_mem (s : Store) (id : String) (P : Poll)
    (h : findPoll s id = some P) : (id, P) ∈ s := by
  induction s with
  | nil => cases h
  | cons kv t ih =>
    by_cases hk : kv.1 = id
    · simp only [findPoll, if_pos hk] at h
      have hkv : kv = (id, P) := by
        cases kv
        cases h
        simp_all
      exact hkv ▸ List.mem_cons_self _ _
    · simp only [findPoll, if_neg hk] at h
      exact List.mem_cons_of_mem _ (ih h)

theorem set_self_eq {α : Type} (l : List α) (i : Nat) (h : i < l.length) :
    l.set i l[i] = l := by
  apply List.ext_getElem?
  intro j
  rw [List.getElem?_set]
  split
  · simp_all [List.getElem?_eq_getElem h]
  · rfl

theorem incVote_map_text (p : Poll) (i : Nat) :
    (incVote p i).options.map (fun o => o.text) =
      p.options.map (fun o => o.text) := by
  unfold incVote
  cases h : p.options[i]? with
  | none => rfl
  | some o =>
    simp only
    rw [List.map_set]
    have hi : i < p.options.length := by
      by_contra hge
      rw [List.getElem?_eq_none (not_lt.mp hge)] at h
      cases h
    have ho : o = p.options.get ⟨i, hi⟩ := by
      rw [List.getElem?_eq_getElem hi] at h
      exact (Option.some.inj h).symm
    have hmi : i < (p.options.map (fun o => o.text)).length := by
      simpa using hi
    have hmap : (p.options.map (fun o => o.text)).get ⟨i, hmi⟩ = o.text := by
      simp [ho]
    calc (p.options.map fun o => o.text).set i o.text
        = (p.options.map fun o => o.text).set i
            ((p.options.map fun o => o.text).get ⟨i, hmi⟩) := by rw [hmap]
      _ = p.options.map fun o => o.text := by
          rw [List.get_eq_getElem]
          exact set_self_eq _ i hmi

theorem rat_cast_toNat_of_den_one (q : ℚ) (hden : q.den = 1) (h0 : 0 ≤ q) :
    ((q.num.toNat : Nat) : ℚ) = q := by
  have h1 : (q.num : ℚ) = q := (Rat.den_eq_one_iff q).mp hden
  have h2 : 0 ≤ q.num := Rat.num_nonneg.mpr h0
  rw [← h1]
  exact_mod_cast congrArg (fun z : ℤ => (z : ℚ)) (Int.toNat_of_nonneg h2)

theorem validVote_true_elim (s : Store) (pid : String) (q : Option ℚ)
    (h : validVote s pid q = true) :
    ∃ P qq, findPoll s pid = some P ∧ q = some qq ∧ 0 ≤ qq ∧
      qq < (P.options.length : ℚ) ∧ qq.den = 1 := by
  unfold validVote at h
  cases hP : findPoll s pid with
  | none => rw [hP] at h; cases q <;> cases h
  | some P =>
    cases q with
    | none => rw [hP] at h; cases h
    | some qq =>
      rw [hP] at h
      simp only [Bool.and_eq_true, decide_eq_true_eq] at h
      exact ⟨P, qq, rfl, rfl, h.1.1, h.1.2, h.2⟩

theorem castVote_valid_result (s : Store) (pid : String) (q : Option ℚ)
    (h : validVote s pid q = true) :
    ∃ P i, findPoll s pid = some P ∧ i < P.options.length ∧
      castVote s pid q = (setPoll s pid (incVote P i), .voted (incVote P i)) := by
  obtain ⟨P, qq, hP, rfl, h0, h1, hden⟩ := validVote_true_elim s pid q h
  have hq : ((qq.num.toNat : Nat) : ℚ) = qq := rat_cast_toNat_of_den_one qq hden h0
  have hi : qq.num.toNat < P.options.length := by
    rw [← hq] at h1
    exact_mod_cast h1
  refine ⟨P, qq.num.toNat, hP, hi, ?_⟩
  unfold castVote
  rw [hP]
  have hg1 : ¬ (qq < 0) := not_lt.mpr h0
  have hg2 : ¬ ((P.options.length : ℚ) ≤ qq) := not_le.mpr h1
  simp only [hg1, hg2, or_self, if_false, hden, if_true]

theorem castVote_invalid (s : Store) (pid : String) (q : Option ℚ)
    (h : validVote s pid q = false) :
    (castVote s pid q).1 = s ∧
      ((castVote s pid q).2 = .noop ∨ (castVote s pid q).2 = .jsError) := by
  unfold castVote
  cases hP : findPoll s pid with
  | none => exact ⟨rfl, Or.inl rfl⟩
  | some P =>
    cases q with
    | none => exact ⟨rfl, Or.inr rfl⟩
    | some qq =>
      unfold validVote at h
      rw [hP] at h
      simp only [Bool.and_eq_true, decide_eq_true_eq, Bool.and_eq_false_iff] at h
      by_cases hg : qq < 0 ∨ (P.options.length : ℚ) ≤ qq
      · simp only [if_pos hg]
        simp
      · have hden : ¬ (qq.den = 1) := by
          rcases h with h' | h'
          · rcases h' with h'' | h''
            · exact absurd (not_lt.mp (fun hlt => hg (Or.inl hlt)))
                (by simpa using h'')
            · exact absurd (not_le.mp (fun hle => hg (Or.inr hle)))
                (by simpa using h'')
          · simpa using h'
        simp only [if_neg hg, if_neg hden]
        simp

theorem validVote_of_valid_nat (s : Store) (pid : String) (P : Poll) (i : Nat)
    (hP : findPoll s pid = some P) (hi : i < P.options.length) :
    validVote s pid (some (i : ℚ)) = true := by
  unfold validVote
  rw [hP]
  simp only [Bool.and_eq_true, decide_eq_true_eq]
  refine ⟨⟨Nat.cast_nonneg i, ?_⟩, Rat.den_natCast i⟩
  exact_mod_cast hi

/-! ## Vote sequences -/

theorem foldl_incVote_length (P : Poll) (votes : List Nat) :
    (votes.foldl incVote P).options.length = P.options.length := by
  induction votes generalizing P with
  | nil => rfl
  | cons v t ih => rw [List.foldl_cons, ih, incVote_length]

theorem foldl_incVote_votes (P : Poll) (votes : List Nat) (j : Nat)
    (hvalid : ∀ v ∈ votes, v < P.options.length) :
    Option.map (fun o => o.votes) ((votes.foldl incVote P).options[j]?) =
      Option.map (fun o => o.votes + votes.count j) P.options[j]? := by
  induction votes generalizing P with
  | nil => cases h : P.options[j]? <;> simp [h]
  | cons v t ih =>
    rw [List.foldl_cons]
    have hv : v < P.options.length := hvalid v (List.mem_cons_self _ _)
    have hvalid' : ∀ w ∈ t, w < (incVote P v).options.length := by
      intro w hw
      rw [incVote_length]
      exact hvalid w (List.mem_cons_of_mem _ hw)
    rw [ih (incVote P v) hvalid']
    by_cases hj : v = j
    · subst hj
      rw [incVote_getElem?_self P v hv]
      cases P.options[v]? <;> simp [List.count_cons]
      omega
    · rw [incVote_getElem?_ne P v j hv hj]
      cases P.options[j]? <;> simp [List.count_cons, hj]

theorem runVotesN_findPoll (s : Store) (pid : String) (P : Poll)
    (votes : List Nat) (hP : findPoll s pid = some P)
    (hvalid : ∀ v ∈ votes, v < P.options.length) :
    findPoll (runVotesN s pid votes) pid = some (votes.foldl incVote P) ∧
    (∀ id', id' ≠ pid →
      findPoll (runVotesN s pid votes) id' = findPoll s id') := by
  induction votes generalizing s P with
  | nil => exact ⟨hP, fun _ _ => rfl⟩
  | cons v t ih =>
    have hv : v < P.options.length := hvalid v (List.mem_cons_self _ _)
    have hstep := castVoteN_valid s pid P v hP hv
    have hP' : findPoll (castVoteN s pid v).1 pid = some (incVote P v) := by
      rw [hstep]
      exact findPoll_setPoll_self s pid (incVote P v)
    have hvalid' : ∀ w ∈ t, w < (incVote P v).options.length := by
      intro w hw
      rw [incVote_length]
      exact hvalid w (List.mem_cons_of_mem _ hw)
    obtain ⟨h1, h2⟩ := ih (castVoteN s pid v).1 (incVote P v) hP' hvalid'
    have hrun : runVotesN s pid (v :: t) = runVotesN (castVoteN s pid v).1 pid t := rfl
    constructor
    · rw [hrun, h1, List.foldl_cons]
    · intro id' hid'
      rw [hrun, h2 id' hid', hstep]
      exact findPoll_setPoll_ne s pid id' _ hid'

/-! ## Shape preservation -/

theorem castVote_store_shape (s : Store) (pid : String) (q : Option ℚ)
    (id : String) : pollShape (castVote s pid q).1 id = pollShape s id := by
  cases hval : validVote s pid q with
  | false => rw [(castVote_invalid s pid q hval).1]
  | true =>
    obtain ⟨P, i, hP, hi, heq⟩ := castVote_valid_result s pid q hval
    rw [heq]
    by_cases hid : id = pid
    · subst hid
      unfold pollShape
      rw [findPoll_setPoll_self, hP]
      simp [incVote_question, incVote_map_text]
    · unfold pollShape
      rw [findPoll_setPoll_ne _ _ _ _ hid]

theorem createPoll_shape_ne (s : Store) (q : String) (opts : OptionsField)
    (gid id : String) (hid : id ≠ gid) :
    pollShape (createPoll s q opts gid).1 id = pollShape s id := by
  cases opts with
  | missing => rfl
  | notArray => rfl
  | arr xs =>
    simp only [createPoll]
    split
    · rfl
    · unfold pollShape
      rw [findPoll_setPoll_ne _ _ _ _ hid]

/-! ## The store invariant -/

theorem allAtLeastTwo_castVote (s : Store) (pid : String) (q : Option ℚ)
    (h : allAtLeastTwo s = true) :
    allAtLeastTwo (castVote s pid q).1 = true := by
  cases hval : validVote s pid q with
  | false =>
    rw [(castVote_invalid s pid q hval).1]
    exact h
  | true =>
    obtain ⟨P, i, hP, hi, heq⟩ := castVote_valid_result s pid q hval
    rw [heq]
    unfold allAtLeastTwo at h ⊢
    rw [List.all_eq_true] at h ⊢
    intro kv hkv
    rcases mem_of_mem_setPoll _ _ _ kv hkv with rfl | hmem
    · have := h (pid, P) (findPoll_some_mem s pid P hP)
      simpa [incVote_length] using this
    · exact h kv hmem

theorem allAtLeastTwo_createPoll (s : Store) (q : String) (xs : List String)
    (gid : String) (hgood : 2 ≤ (xs.filter keepOption).length)
    (h : allAtLeastTwo s = true) :
    allAtLeastTwo (createPoll s q (.arr xs) gid).1 = true := by
  simp only [createPoll]
  split
  · exact h
  · unfold allAtLeastTwo at h ⊢
    rw [List.all_eq_true] at h ⊢
    intro kv hkv
    rcases mem_of_mem_setPoll _ _ _ kv hkv with rfl | hmem
    · simpa [buildOptions] using hgood
    · exact h kv hmem

theorem allAtLeastTwo_runOps (s : Store) (ops : List StoreOp)
    (hs : allAtLeastTwo s = true) (hops : goodCreates ops = true) :
    allAtLeastTwo (runOps s ops) = true := by
  induction ops generalizing s with
  | nil => exact hs
  | cons op t ih =>
    unfold goodCreates at hops
    rw [List.all_cons, Bool.and_eq_true] at hops
    have hrun : runOps s (op :: t) = runOps (applyOp s op) t := rfl
    rw [hrun]
    refine ih _ ?_ hops.2
    cases op with
    | get _ => exact hs
    | vote pid q => exact allAtLeastTwo_castVote s pid q hs
    | create q opts gid =>
      cases opts with
      | missing => exact hs
      | notArray => exact hs
      | arr xs =>
        apply allAtLeastTwo_createPoll s q xs gid _ hs
        simpa using hops.1

/-! ## Rooms -/

theorem mem_roomMembers_joinRoom (r : Rooms) (pid : String) (c : Nat) :
    c ∈ roomMembers (joinRoom r pid c) pid := by
  induction r with
  | nil => simp [joinRoom, roomMembers]
  | cons kv t ih =>
    by_cases hk : kv.1 = pid
    · simp only [joinRoom, if_pos hk, roomMembers, if_pos hk]
      by_cases hc : c ∈ kv.2 <;> simp [hc]
    · simp only [joinRoom, if_neg hk, roomMembers, if_neg hk]
      exact ih

theorem joinRoom_idem (r : Rooms) (pid : String) (c : Nat) :
    joinRoom (joinRoom r pid c) pid c = joinRoom r pid c := by
  induction r with
  | nil => simp [joinRoom]
  | cons kv t ih =>
    by_cases hk : kv.1 = pid
    · by_cases hc : c ∈ kv.2
      · simp [joinRoom, hk, hc]
      · simp [joinRoom, hk, hc]
    · simp [joinRoom, hk, ih]

theorem roomMembers_joinRoom_other (r : Rooms) (pid pid' : String) (c : Nat)
    (h : pid' ≠ pid) :
    roomMembers (joinRoom r pid c) pid' = roomMembers r pid' := by
  induction r with
  | nil => simp [joinRoom, roomMembers, Ne.symm h]
  | cons kv t ih =>
    by_cases hk : kv.1 = pid
    · have hk' : ¬ kv.1 = pid' := fun e => h (e.symm.trans hk)
      simp only [joinRoom, if_pos hk, roomMembers, if_neg hk']
    · by_cases hk' : kv.1 = pid'
      · simp only [joinRoom, if_neg hk, roomMembers, if_pos hk']
      · simp only [joinRoom, if_neg hk, roomMembers, if_neg hk']
        exact ih

/-! ## The message stream -/

theorem updatesFor_append (pid : String) (m1 m2 : List Msg) :
    updatesFor pid (m1 ++ m2) = updatesFor pid m1 ++ updatesFor pid m2 := by
  unfold updatesFor
  exact List.filterMap_append _ _ _

theorem run_cons (st : ServerState) (e : Event) (es : List Event) :
    run st (e :: es) =
      ((run (step st e).1 es).1, (step st e).2 ++ (run (step st e).1 es).2) := rfl

theorem setPoll_of_fresh (s : Store) (id : String) (p : Poll)
    (h : findPoll s id = none) : setPoll s id p = s ++ [(id, p)] := by
  induction s with
  | nil => rfl
  | cons kv t ih =>
    by_cases hk : kv.1 = id
    · simp only [findPoll, if_pos hk] at h
      cases h
    · simp only [findPoll, if_neg hk] at h
      simp only [setPoll, if_neg hk, List.cons_append, ih h]

/-! ## The claims -/

/-- C1 (corrected) — counterexample: the spec says a question that is
empty after trimming is rejected, but the guard at `server.js` line 97
tests the raw string; the whitespace-only question `" "` is truthy, so the
request is accepted and a poll with the empty trimmed question is stored. -/
theorem createPoll_accepts_blank_question :
    createPoll [] " " (.arr ["a", "b"]) "id1" =
      ([("id1", { question := "",
                  options := [{ text := "a", votes := 0 },
                              { text := "b", votes := 0 }] })],
       .ok "id1" { question := "",
                   options := [{ text := "a", votes := 0 },
                               { text := "b", votes := 0 }] }) := by
  decide

/-- C1 (amended): `createPoll` validates the *raw* request: it rejects
with the 400 error body, leaving the store unchanged, exactly when the
question is the empty string, or the options field is missing or not an
array, or the raw options array has fewer than 2 entries; any other
request — even a whitespace-only question or one with fewer than 2
non-empty options after trimming — is accepted, and trimming/filtering
happens only in the stored poll. -/
theorem createPoll_raw_validation (s : Store) (q q' : String)
    (xs ys : List String) (genId : String) (hxs : xs.length < 2)
    (hq' : q' ≠ "") (hys : 2 ≤ ys.length) :
    createPoll s "" (.arr ys) genId =
      (s, .error "Question and at least 2 options required") ∧
    createPoll s q (.arr xs) genId =
      (s, .error "Question and at least 2 options required") ∧
    createPoll s q .missing genId =
      (s, .error "Question and at least 2 options required") ∧
    createPoll s q .notArray genId =
      (s, .error "Question and at least 2 options required") ∧
    createPoll s q' (.arr ys) genId =
      (setPoll s genId { question := jsTrim q', options := buildOptions ys },
       .ok genId { question := jsTrim q', options := buildOptions ys }) := by
  refine ⟨?_, ?_, rfl, rfl, ?_⟩
  · simp [createPoll]
  · simp [createPoll, hxs]
  · simp [createPoll, hq', Nat.not_lt.mpr hys]

/-- C1 witness: the validation theorem applied at concrete requests. -/
theorem createPoll_raw_validation_witness :
    (["a"] : List String).length < 2 ∧ ("Q" : String) ≠ "" ∧
    2 ≤ (["a", "b"] : List String).length ∧
    (createPoll [] "" (.arr ["a", "b"]) "i" =
       ([], .error "Question and at least 2 options required") ∧
     createPoll [] "x" (.arr ["a"]) "i" =
       ([], .error "Question and at least 2 options required") ∧
     createPoll [] "x" .missing "i" =
       ([], .error "Question and at least 2 options required") ∧
     createPoll [] "x" .notArray "i" =
       ([], .error "Question and at least 2 options required") ∧
     createPoll [] "Q" (.arr ["a", "b"]) "i" =
       ([("i", { question := "Q",
                 options := [{ text := "a", votes := 0 },
                             { text := "b", votes := 0 }] })],
        .ok "i" { question := "Q",
                  options := [{ text := "a", votes := 0 },
                              { text := "b", votes := 0 }] })) :=
  ⟨by decide, by decide, by decide,
   createPoll_raw_validation [] "x" "Q" ["a"] ["a", "b"] "i"
     (by decide) (by decide) (by decide)⟩

/-- C2 (corrected) — counterexample: a create request whose raw options
array has ≥2 entries but fewer than 2 non-empty entries after trimming is
accepted, so a reachable store holds a poll with a single option,
violating the "every stored poll has at least 2 options" invariant. -/
theorem reachable_store_with_one_option :
    (createPoll [] "Q?" (.arr ["a", "", ""]) "id1").1 =
      [("id1", { question := "Q?", options := [{ text := "a", votes := 0 }] })] ∧
    allAtLeastTwo (createPoll [] "Q?" (.arr ["a", "", ""]) "id1").1 = false := by
  decide

/-- C2 (amended): when every create request in the history carries at
least 2 options that are non-empty after trimming, every reachable store
keeps every poll at ≥2 options; and no operation ever changes an existing
poll's question, option count or option texts: `castVote` preserves every
poll's shape, `getPoll` never writes, and `createPoll` leaves every id
other than the generated one untouched. -/
theorem store_invariant_preserved (s : Store) (ops : List StoreOp)
    (s2 : Store) (pid2 id2 : String) (q2 : Option ℚ) (s3 : Store)
    (q3 : String) (opts3 : OptionsField) (gid id3 : String)
    (hs : allAtLeastTwo s = true) (hops : goodCreates ops = true)
    (hid3 : id3 ≠ gid) :
    allAtLeastTwo (runOps s ops) = true ∧
    pollShape (castVote s2 pid2 q2).1 id2 = pollShape s2 id2 ∧
    applyOp s2 (.get id2) = s2 ∧
    pollShape (createPoll s3 q3 opts3 gid).1 id3 = pollShape s3 id3 :=
  ⟨allAtLeastTwo_runOps s ops hs hops,
   castVote_store_shape s2 pid2 q2 id2,
   rfl,
   createPoll_shape_ne s3 q3 opts3 gid id3 hid3⟩

/-- C2 witness: the invariant theorem applied to a concrete history. -/
theorem store_invariant_preserved_witness :
    allAtLeastTwo samplePolls = true ∧
    goodCreates [StoreOp.create "R?" (.arr ["x", "y"]) "p9",
                 StoreOp.vote "p1" (some 0), StoreOp.get "p1"] = true ∧
    ("p1" : String) ≠ "p9" ∧
    (allAtLeastTwo (runOps samplePolls
        [StoreOp.create "R?" (.arr ["x", "y"]) "p9",
         StoreOp.vote "p1" (some 0), StoreOp.get "p1"]) = true ∧
     pollShape (castVote samplePolls "p1" (some 0)).1 "p2" =
       pollShape samplePolls "p2" ∧
     applyOp samplePolls (.get "p2") = samplePolls ∧
     pollShape (createPoll samplePolls "R?" (.arr ["x", "y"]) "p9").1 "p1" =
       pollShape samplePolls "p1") :=
  ⟨by decide, by decide, by decide,
   store_invariant_preserved samplePolls
     [StoreOp.create "R?" (.arr ["x", "y"]) "p9",
      StoreOp.vote "p1" (some 0), StoreOp.get "p1"]
     samplePolls "p1" "p2" (some 0) samplePolls "R?" (.arr ["x", "y"])
     "p9" "p1" (by decide) (by decide) (by decide)⟩

/-- C4 (confirmed): a `castVote` whose poll id is unknown, or whose
numeric `optionIndex` lies outside `[0, optionCount)`, returns the store
unchanged with the `noop` outcome — no error object, no mutation. -/
theorem castVote_invalid_is_silent_noop (s : Store) (pid : String) (q : ℚ)
    (P : Poll)
    (h : findPoll s pid = none ∨
         (findPoll s pid = some P ∧ (q < 0 ∨ (P.options.length : ℚ) ≤ q))) :
    castVote s pid (some q) = (s, .noop) := by
  rcases h with h | ⟨hP, hq⟩
  · exact castVote_unknown s pid _ h
  · exact castVote_out_of_range s pid P q hP hq

/-- C4 witness: an unknown poll id, and an out-of-range index `5` on a
2-option poll, are both silent no-ops. -/
theorem castVote_invalid_is_silent_noop_witness :
    castVote samplePolls "zz" (some 0) = (samplePolls, .noop) ∧
    castVote samplePolls "p1" (some 5) = (samplePolls, .noop) :=
  ⟨castVote_invalid_is_silent_noop samplePolls "zz" 0 samplePoll
     (Or.inl (by decide)),
   castVote_invalid_is_silent_noop samplePolls "p1" 5 samplePoll
     (Or.inr ⟨by decide, Or.inr (by decide)⟩)⟩

/-- C8 (code_bug): with an existing poll and a numeric but non-integer
`optionIndex` such as `0.5`, the guard `optionIndex < 0 ||
optionIndex >= poll.options.length` passes, `poll.options[0.5]` is
`undefined`, and `undefined.votes++` throws a `TypeError` — the `vote`
handler does throw, contradicting the fire-and-forget contract; the store
is still unchanged and nothing is broadcast. -/
theorem vote_handler_throws_on_fractional_index :
    castVote samplePolls "p1" (some halfRat) = (samplePolls, .jsError) ∧
    voteHandler { polls := samplePolls, rooms := [] } "p1" (some halfRat) =
      ({ polls := samplePolls, rooms := [] }, [], .jsError) := by
  decide

/-- C6 (corrected) — counterexample: the generated id is never checked
against the store; when it collides with an existing key the new poll
*overwrites* the old one, so the returned identifier was previously used. -/
theorem createPoll_reuses_colliding_id :
    createPoll
        [("k", { question := "Old?",
                 options := [{ text := "A", votes := 0 },
                             { text := "B", votes := 0 }] })]
        "New?" (.arr ["X", "Y"]) "k" =
      ([("k", { question := "New?",
                options := [{ text := "X", votes := 0 },
                            { text := "Y", votes := 0 }] })],
       .ok "k" { question := "New?",
                 options := [{ text := "X", votes := 0 },
                             { text := "Y", votes := 0 }] }) := by
  decide

/-- C6 (amended): for a valid creation input, *provided the generated
identifier is not already a key of the store*, `createPoll` appends a new
entry under that identifier — a poll whose question is the trimmed input
question and whose options are exactly the trimmed non-empty input
options, each at 0 votes — and every other poll is untouched. -/
theorem createPoll_valid_input_spec (s : Store) (q : String)
    (xs : List String) (genId id' : String) (hq : jsTrim q ≠ "")
    (hcount : 2 ≤ (xs.filter keepOption).length)
    (hfresh : findPoll s genId = none) (hid' : id' ≠ genId) :
    createPoll s q (.arr xs) genId =
      (s ++ [(genId, { question := jsTrim q, options := buildOptions xs })],
       .ok genId { question := jsTrim q, options := buildOptions xs }) ∧
    (buildOptions xs).map (fun o => o.text) =
      (xs.filter keepOption).map jsTrim ∧
    (buildOptions xs).all (fun o => o.votes == 0) = true ∧
    findPoll (createPoll s q (.arr xs) genId).1 genId =
      some { question := jsTrim q, options := buildOptions xs } ∧
    findPoll (createPoll s q (.arr xs) genId).1 id' = findPoll s id' := by
  have hq0 : q ≠ "" := fun e => hq (by rw [e]; rfl)
  have hlen : ¬ (xs.length < 2) := by
    have hle : (xs.filter keepOption).length ≤ xs.length :=
      List.length_filter_le _ _
    omega
  have hcreate : createPoll s q (.arr xs) genId =
      (setPoll s genId { question := jsTrim q, options := buildOptions xs },
       .ok genId { question := jsTrim q, options := buildOptions xs }) := by
    simp [createPoll, hq0, hlen]
  refine ⟨?_, ?_, ?_, ?_, ?_⟩
  · rw [hcreate, setPoll_of_fresh s genId _ hfresh]
  · unfold buildOptions
    rw [List.map_map]
    rfl
  · unfold buildOptions
    simp only [List.all_eq_true]
    intro o ho
    rw [List.mem_map] at ho
    obtain ⟨t, _, rfl⟩ := ho
    rfl
  · rw [hcreate]
    exact findPoll_setPoll_self s genId _
  · rw [hcreate]
    exact findPoll_setPoll_ne s genId id' _ hid'

/-- C6 witness: the amended creation theorem at a concrete store and
fresh id. -/
theorem createPoll_valid_input_spec_witness :
    jsTrim " Pizza? " ≠ "" ∧
    2 ≤ ((([" Yes", "No ", " "] : List String)).filter keepOption).length ∧
    findPoll samplePolls "p9" = none ∧ ("p1" : String) ≠ "p9" ∧
    (createPoll samplePolls " Pizza? " (.arr [" Yes", "No ", " "]) "p9" =
       (samplePolls ++
          [("p9", { question := "Pizza?",
                    options := [{ text := "Yes", votes := 0 },
                                { text := "No", votes := 0 }] })],
        .ok "p9" { question := "Pizza?",
                   options := [{ text := "Yes", votes := 0 },
                               { text := "No", votes := 0 }] }) ∧
     (buildOptions [" Yes", "No ", " "]).map (fun o => o.text) =
       (([" Yes", "No ", " "] : List String).filter keepOption).map jsTrim ∧
     (buildOptions [" Yes", "No ", " "]).all (fun o => o.votes == 0) = true ∧
     findPoll (createPoll samplePolls " Pizza? "
         (.arr [" Yes", "No ", " "]) "p9").1 "p9" =
       some { question := "Pizza?",
              options := [{ text := "Yes", votes := 0 },
                          { text := "No", votes := 0 }] } ∧
     findPoll (createPoll samplePolls " Pizza? "
         (.arr [" Yes", "No ", " "]) "p9").1 "p1" = findPoll samplePolls "p1") :=
  ⟨by decide, by decide, by decide, by decide,
   createPoll_valid_input_spec samplePolls " Pizza? " [" Yes", "No ", " "]
     "p9" "p1" (by decide) (by decide) (by decide) (by decide)⟩

/-- C10 (confirmed): a valid `castVote` on poll `pid` at index `i`
leaves every other poll unchanged, and within the poll keeps the question,
the option count, every other option entry, and the text of option `i`;
only option `i`'s vote count changes, by exactly 1. -/
theorem castVote_frame (s : Store) (pid : String) (P : Poll) (i : Nat)
    (id' : String) (j : Nat) (hP : findPoll s pid = some P)
    (hi : i < P.options.length) (hid' : id' ≠ pid) (hj : j ≠ i) :
    findPoll (castVoteN s pid i).1 id' = findPoll s id' ∧
    findPoll (castVoteN s pid i).1 pid = some (incVote P i) ∧
    (incVote P i).question = P.question ∧
    (incVote P i).options.length = P.options.length ∧
    (incVote P i).options[j]? = P.options[j]? ∧
    Option.map (fun o => o.text) ((incVote P i).options[i]?) =
      Option.map (fun o => o.text) (P.options[i]?) ∧
    Option.map (fun o => o.votes) ((incVote P i).options[i]?) =
      Option.map (fun o => o.votes + 1) (P.options[i]?) := by
  have hstep := castVoteN_valid s pid P i hP hi
  have hstore : (castVoteN s pid i).1 = setPoll s pid (incVote P i) := by
    rw [hstep]
  refine ⟨?_, ?_, incVote_question P i, incVote_length P i,
    incVote_getElem?_ne P i j hi (Ne.symm hj), ?_, ?_⟩
  · rw [hstore]
    exact findPoll_setPoll_ne s pid id' _ hid'
  · rw [hstore]
    exact findPoll_setPoll_self s pid _
  · rw [incVote_getElem?_self P i hi]
    cases P.options[i]? <;> rfl
  · rw [incVote_getElem?_self P i hi]
    cases P.options[i]? <;> rfl

/-- C10 witness: the frame theorem on the sample store, voting for
option 0 of poll `p1` while observing poll `p2` and option 1. -/
theorem castVote_frame_witness :
    findPoll samplePolls "p1" = some samplePoll ∧
    0 < samplePoll.options.length ∧ ("p2" : String) ≠ "p1" ∧ (1 : Nat) ≠ 0 ∧
    (findPoll (castVoteN samplePolls "p1" 0).1 "p2" = findPoll samplePolls "p2" ∧
     findPoll (castVoteN samplePolls "p1" 0).1 "p1" = some (incVote samplePoll 0) ∧
     (incVote samplePoll 0).question = samplePoll.question ∧
     (incVote samplePoll 0).options.length = samplePoll.options.length ∧
     (incVote samplePoll 0).options[1]? = samplePoll.options[1]? ∧
     Option.map (fun o => o.text) ((incVote samplePoll 0).options[0]?) =
       Option.map (fun o => o.text) (samplePoll.options[0]?) ∧
     Option.map (fun o => o.votes) ((incVote samplePoll 0).options[0]?) =
       Option.map (fun o => o.votes + 1) (samplePoll.options[0]?)) :=
  ⟨by decide, by decide, by decide, by decide,
   castVote_frame samplePolls "p1" samplePoll 0 "p2" 1
     (by decide) (by decide) (by decide) (by decide)⟩

/-- C3 (confirmed): starting from a poll with all counts at 0, after
any sequence of valid `castVote(pid, v)` calls the count of option `j`
equals the number of votes cast for `j`; moreover a single valid vote for
`i` increments option `i`'s count by exactly 1 and leaves any other
option's count unchanged. -/
theorem castVote_tally (s : Store) (pid : String) (P : Poll)
    (votes : List Nat) (i j k : Nat) (hP : findPoll s pid = some P)
    (hvalid : votes.all (fun v => v < P.options.length) = true)
    (hzero : P.options.all (fun o => o.votes == 0) = true)
    (hj : j < P.options.length) (hi : i < P.options.length) (hk : k ≠ i) :
    voteCount (runVotesN s pid votes) pid j = some (votes.count j) ∧
    voteCount (castVoteN s pid i).1 pid i =
      Option.map (fun n => n + 1) (voteCount s pid i) ∧
    voteCount (castVoteN s pid i).1 pid k = voteCount s pid k := by
  have hvalid' : ∀ v ∈ votes, v < P.options.length := by
    rw [List.all_eq_true] at hvalid
    intro v hv
    simpa using hvalid v hv
  obtain ⟨h1, _⟩ := runVotesN_findPoll s pid P votes hP hvalid'
  have hstep := castVoteN_valid s pid P i hP hi
  have hstore : (castVoteN s pid i).1 = setPoll s pid (incVote P i) := by
    rw [hstep]
  refine ⟨?_, ?_, ?_⟩
  · simp only [voteCount, h1]
    rw [foldl_incVote_votes P votes j hvalid',
      List.getElem?_eq_getElem hj]
    have hz : (P.options.get ⟨j, hj⟩).votes = 0 := by
      rw [List.all_eq_true] at hzero
      have hmem : P.options.get ⟨j, hj⟩ ∈ P.options := by
        rw [List.get_eq_getElem]
        exact List.getElem_mem hj
      simpa using hzero _ hmem
    rw [List.get_eq_getElem] at hz
    simp [hz]
  · simp only [voteCount, hstore, findPoll_setPoll_self, hP]
    rw [incVote_getElem?_self P i hi]
    cases P.options[i]? <;> rfl
  · simp only [voteCount, hstore, findPoll_setPoll_self, hP]
    rw [incVote_getElem?_ne P i k hi (Ne.symm hk)]

/-- C3 witness: voting `[0, 1, 0]` on the sample poll yields counts
`Yes: 2`; a single vote for option 1 bumps it from 0 to 1 and leaves
option 0 alone. -/
theorem castVote_tally_witness :
    findPoll samplePolls "p1" = some samplePoll ∧
    ([0, 1, 0] : List Nat).all (fun v => v < samplePoll.options.length) = true ∧
    samplePoll.options.all (fun o => o.votes == 0) = true ∧
    0 < samplePoll.options.length ∧ 1 < samplePoll.options.length ∧
    (0 : Nat) ≠ 1 ∧
    (voteCount (runVotesN samplePolls "p1" [0, 1, 0]) "p1" 0 =
       some (([0, 1, 0] : List Nat).count 0) ∧
     voteCount (castVoteN samplePolls "p1" 1).1 "p1" 1 =
       Option.map (fun n => n + 1) (voteCount samplePolls "p1" 1) ∧
     voteCount (castVoteN samplePolls "p1" 1).1 "p1" 0 =
       voteCount samplePolls "p1" 0) :=
  ⟨by decide, by decide, by decide, by decide, by decide, by decide,
   castVote_tally samplePolls "p1" samplePoll [0, 1, 0] 1 0 0
     (by decide) (by decide) (by decide) (by decide) (by decide) (by decide)⟩

/-- C5 (confirmed): a valid vote message makes the handler broadcast
exactly one `update` to the poll's room, whose payload is the updated poll
as it is now stored; an invalid vote message (unknown poll, out-of-range
or malformed index) emits nothing and leaves the store unchanged. -/
theorem vote_broadcast_iff_valid (st : ServerState) (pid : String)
    (P : Poll) (i : Nat) (pid2 : String) (q2 : Option ℚ)
    (hP : findPoll st.polls pid = some P) (hi : i < P.options.length)
    (hinv : validVote st.polls pid2 q2 = false) :
    (voteHandler st pid (some (i : ℚ))).2.1 =
      [Msg.toRoom pid "update" (incVote P i)] ∧
    findPoll (voteHandler st pid (some (i : ℚ))).1.polls pid =
      some (incVote P i) ∧
    (voteHandler st pid2 q2).2.1 = [] ∧
    (voteHandler st pid2 q2).1.polls = st.polls := by
  have hstep := castVoteN_valid st.polls pid P i hP hi
  unfold castVoteN at hstep
  obtain ⟨hstore2, hout2⟩ := castVote_invalid st.polls pid2 q2 hinv
  have hinv23 : voteHandler st pid2 q2 =
      ({ st with polls := (castVote st.polls pid2 q2).1 }, [],
       (castVote st.polls pid2 q2).2) := by
    rcases hout2 with h2 | h2 <;> simp only [voteHandler, h2]
  refine ⟨?_, ?_, ?_, ?_⟩
  · simp only [voteHandler, hstep]
  · simp only [voteHandler, hstep]
    exact findPoll_setPoll_self st.polls pid _
  · rw [hinv23]
  · rw [hinv23]
    exact hstore2

/-- C5 witness: a valid vote for option 0 of `p1` broadcasts the
updated snapshot; a vote with out-of-range index 5 emits nothing. -/
theorem vote_broadcast_iff_valid_witness :
    findPoll samplePolls "p1" = some samplePoll ∧
    0 < samplePoll.options.length ∧
    validVote samplePolls "p1" (some 5) = false ∧
    ((voteHandler { polls := samplePolls, rooms := [] } "p1"
        (some ((0 : Nat) : ℚ))).2.1 =
       [Msg.toRoom "p1" "update" (incVote samplePoll 0)] ∧
     findPoll (voteHandler { polls := samplePolls, rooms := [] } "p1"
         (some ((0 : Nat) : ℚ))).1.polls "p1" = some (incVote samplePoll 0) ∧
     (voteHandler { polls := samplePolls, rooms := [] } "p1" (some 5)).2.1 =
       [] ∧
     (voteHandler { polls := samplePolls, rooms := [] } "p1"
         (some 5)).1.polls = samplePolls) :=
  ⟨by decide, by decide, by decide,
   vote_broadcast_iff_valid { polls := samplePolls, rooms := [] } "p1"
     samplePoll 0 "p1" (some 5) (by decide) (by decide) (by decide)⟩

/-- C7 (confirmed): a `join` message always adds the connection to the
poll id's room (idempotently — a second join changes nothing), sends the
current snapshot to that connection alone exactly when the poll exists,
sends nothing for an unknown poll id (no error), and never touches the
poll store. -/
theorem join_subscribe_spec (st : ServerState) (conn : Nat)
    (pid pidMissing : String) (P : Poll)
    (hP : findPoll st.polls pid = some P)
    (hmiss : findPoll st.polls pidMissing = none) :
    conn ∈ roomMembers (joinHandler st conn pid).1.rooms pid ∧
    (joinHandler (joinHandler st conn pid).1 conn pid).1.rooms =
      (joinHandler st conn pid).1.rooms ∧
    (joinHandler st conn pid).2 = [Msg.toConn conn "poll" P] ∧
    (joinHandler st conn pidMissing).2 = [] ∧
    (joinHandler st conn pid).1.polls = st.polls ∧
    (joinHandler st conn pidMissing).1.polls = st.polls := by
  refine ⟨?_, ?_, ?_, ?_, ?_, ?_⟩
  · simp [joinHandler, hP, mem_roomMembers_joinRoom]
  · simp [joinHandler, hP, joinRoom_idem]
  · simp [joinHandler, hP]
  · simp [joinHandler, hmiss]
  · simp [joinHandler, hP]
  · simp [joinHandler, hmiss]

/-- C7 witness: joining existing poll `p1` and unknown poll `zz` on
the sample store. -/
theorem join_subscribe_spec_witness :
    findPoll samplePolls "p1" = some samplePoll ∧
    findPoll samplePolls "zz" = none ∧
    (7 ∈ roomMembers (joinHandler { polls := samplePolls, rooms := [] } 7
        "p1").1.rooms "p1" ∧
     (joinHandler (joinHandler { polls := samplePolls, rooms := [] } 7
         "p1").1 7 "p1").1.rooms =
       (joinHandler { polls := samplePolls, rooms := [] } 7 "p1").1.rooms ∧
     (joinHandler { polls := samplePolls, rooms := [] } 7 "p1").2 =
       [Msg.toConn 7 "poll" samplePoll] ∧
     (joinHandler { polls := samplePolls, rooms := [] } 7 "zz").2 = [] ∧
     (joinHandler { polls := samplePolls, rooms := [] } 7 "p1").1.polls =
       samplePolls ∧
     (joinHandler { polls := samplePolls, rooms := [] } 7 "zz").1.polls =
       samplePolls) :=
  ⟨by decide, by decide,
   join_subscribe_spec { polls := samplePolls, rooms := [] } 7 "p1" "zz"
     samplePoll (by decide) (by decide)⟩

/-- C9 (confirmed): for any sequence of incoming messages processed in
arrival order, the stream of `update` payloads broadcast to poll `pid`'s
room equals, in order, the stream of store snapshots of `pid` taken right
after each applied vote — never stale, never reordered (per-connection
in-order delivery of the emitted stream is the transport's contract). -/
theorem update_stream_matches_votes (st : ServerState) (pid : String)
    (events : List Event) :
    updatesFor pid (run st events).2 = postVoteSnapshots st pid events := by
  induction events generalizing st with
  | nil => rfl
  | cons e es ih =>
    rw [run_cons]
    show updatesFor pid ((step st e).2 ++ (run (step st e).1 es).2) = _
    rw [updatesFor_append, ih]
    have hhead : updatesFor pid (step st e).2 =
        (match e with
         | Event.vote p q =>
           if p = pid ∧ validVote st.polls p q then
             match findPoll (step st e).1.polls pid with
             | some pl => [pl]
             | none => []
           else []
         | _ => []) := by
      cases e with
      | join c p =>
        cases hfp : findPoll st.polls p <;>
          simp [step, joinHandler, hfp, updatesFor]
      | vote p q =>
        cases hval : validVote st.polls p q with
        | false =>
          obtain ⟨hstore, hout⟩ := castVote_invalid st.polls p q hval
          rcases hout with h2 | h2
          · have hcv : castVote st.polls p q = (st.polls, .noop) := by
              rw [Prod.ext_iff]
              exact ⟨hstore, h2⟩
            simp [step, voteHandler, hcv, updatesFor, hval]
          · have hcv : castVote st.polls p q = (st.polls, .jsError) := by
              rw [Prod.ext_iff]
              exact ⟨hstore, h2⟩
            simp [step, voteHandler, hcv, updatesFor, hval]
        | true =>
          obtain ⟨P, i, hP, hi, heq⟩ := castVote_valid_result st.polls p q hval
          by_cases hp : p = pid
          · subst hp
            simp [step, voteHandler, heq, updatesFor, hval,
              findPoll_setPoll_self]
          · simp [step, voteHandler, heq, updatesFor, hval, hp]
    rw [hhead]
    rfl

end Techloop
